import Mathlib

/-!
Verification of `src/adventure.py` (week-11 "Lost Temple of Data" assignment).

Shallow embedding conventions:
* Text is `String`; character-level work happens on `String.data : List Char`.
* The two regular expressions of the script, `\d{2}/\d{2}/\d{4}` and
  `AZMAR-\d{3}`, are fixed-length sequences of character classes; `re.findall`
  is embedded as a left-to-right scan emitting non-overlapping matches, which
  is exactly its behaviour on group-free fixed-length patterns.  `\d` is
  modelled as an ASCII decimal digit.
* CPython's `datetime.strptime(s, "%m/%d/%Y")` is embedded (for the
  ten-character candidates the scan produces) with its real semantics: the
  `_strptime` regex bounds month to 1..12 and day to 1..31, and the
  `datetime` constructor then enforces year >= 1 and day <= days in that
  month (Gregorian leap rule); failure is `Option.none` (Python: ValueError).
* The pandas-backed loaders are embedded over an explicit read outcome
  (`Except PyExc DataFrame`), and return the pair (result sentinel, printed
  diagnostics) — a raised exception would be a different return type, which
  the embedded loaders do not have.
-/

namespace Adventure

/-- Character classes occurring in the two regex patterns of the script:
a literal character, or a `\d` digit class (ASCII decimal digit). -/
inductive CharClass where
  | digit : CharClass
  | lit : Char → CharClass
deriving DecidableEq

/-- Does character `c` belong to the class? -/
def matchesClass : CharClass → Char → Bool
  | .digit, c => c.isDigit
  | .lit l, c => c == l

/-- Match a fixed sequence of character classes at the head of `s`;
on success return the matched characters and the remainder of `s`. -/
def matchPattern : List CharClass → List Char → Option (List Char × List Char)
  | [], s => some ([], s)
  | _ :: _, [] => none
  | p :: ps, c :: cs =>
    if matchesClass p c then
      match matchPattern ps cs with
      | some (m, rest) => some (c :: m, rest)
      | none => none
    else none

/-- Pointwise test that `cs` has exactly the shape described by `ps`. -/
def matchesClasses : List CharClass → List Char → Bool
  | [], [] => true
  | p :: ps, c :: cs => matchesClass p c && matchesClasses ps cs
  | _, _ => false

/-- Left-to-right scan for non-overlapping matches of a (nonempty) fixed
pattern, as `re.findall` performs it: `i` is the absolute position of the
head of `s` in the original text, and `skip` counts characters of the
previously emitted match still to be stepped over.  Each element of the
result is (start position, matched characters). -/
def findallAux (pat : CharClass × List CharClass) :
    List Char → Nat → Nat → List (Nat × List Char)
  | [], _, _ => []
  | _ :: cs, i, skip + 1 => findallAux pat cs (i + 1) skip
  | s@(_ :: cs), i, 0 =>
    match matchPattern (pat.1 :: pat.2) s with
    | some (m, _) => (i, m) :: findallAux pat cs (i + 1) (m.length - 1)
    | none => findallAux pat cs (i + 1) 0

/-- Embedding of `re.findall(pattern, text)` for the script's group-free
fixed-length patterns: the matched substrings, in order of first appearance. -/
def re_findall (pat : CharClass × List CharClass) (text : String) : List String :=
  (findallAux pat text.data 0 0).map (fun p => String.mk p.2)

/-- Embedding of the regex `\d{2}/\d{2}/\d{4}` (line 71 of adventure.py). -/
def date_pattern : CharClass × List CharClass :=
  (.digit, [.digit, .lit '/', .digit, .digit, .lit '/',
            .digit, .digit, .digit, .digit])

/-- Embedding of the regex `AZMAR-\d{3}` (line 100 of adventure.py). -/
def code_pattern : CharClass × List CharClass :=
  (.lit 'A', [.lit 'Z', .lit 'M', .lit 'A', .lit 'R', .lit '-',
              .digit, .digit, .digit])

/-- Numeric value of an ASCII digit character. -/
def digitVal (c : Char) : Nat := c.toNat - 48

/-- Gregorian leap-year rule, as implemented by CPython's datetime module. -/
def isLeapYear (y : Nat) : Bool :=
  y % 4 == 0 && (y % 100 != 0 || y % 400 == 0)

/-- Number of days in a month, as implemented by CPython's datetime module. -/
def daysInMonth (y m : Nat) : Nat :=
  if m == 2 then (if isLeapYear y then 29 else 28)
  else if m == 4 || m == 6 || m == 9 || m == 11 then 30
  else 31

/-- Shape test: does `s` match `\d\d/\d\d/\d\d\d\d`? -/
def isDateShape (s : String) : Bool :=
  matchesClasses (date_pattern.1 :: date_pattern.2) s.data

/-- Shape test: does `s` match `AZMAR-\d\d\d`? -/
def isCodeShape (s : String) : Bool :=
  matchesClasses (code_pattern.1 :: code_pattern.2) s.data

/-- Month field of a date-shaped string (first two digits). -/
def monthOf (s : String) : Nat :=
  match s.data with
  | m1 :: m2 :: _ => 10 * digitVal m1 + digitVal m2
  | _ => 0

/-- Day field of a date-shaped string (digits four and five). -/
def dayOf (s : String) : Nat :=
  match s.data with
  | _ :: _ :: _ :: d1 :: d2 :: _ => 10 * digitVal d1 + digitVal d2
  | _ => 0

/-- Year field of a date-shaped string (last four digits). -/
def yearOf (s : String) : Nat :=
  match s.data with
  | _ :: _ :: _ :: _ :: _ :: _ :: y1 :: y2 :: y3 :: y4 :: _ =>
      1000 * digitVal y1 + 100 * digitVal y2 + 10 * digitVal y3 + digitVal y4
  | _ => 0

/-- Embedding of CPython's `datetime.strptime(s, "%m/%d/%Y")`, specialised to
the ten-character `\d\d/\d\d/\d\d\d\d` candidates the scan produces (which is
the only way line 78 of adventure.py calls it; other inputs fail the shape
test here).  CPython's `_strptime` format regex accepts a two-digit month
only in 01..12 and a two-digit day only in 01..31; the `datetime` constructor
then requires year >= MINYEAR = 1 and day <= days in that month of that year
(so, e.g., "02/30/2024" raises).  Any failure raises ValueError, modelled as
`none`; success returns (month, day, year). -/
def strptime_mdY (s : String) : Option (Nat × Nat × Nat) :=
  if isDateShape s then
    let month := monthOf s
    let day := dayOf s
    let year := yearOf s
    if 1 ≤ month ∧ month ≤ 12 ∧ 1 ≤ day ∧ day ≤ 31 ∧ 1 ≤ year ∧
        day ≤ daysInMonth year month then
      some (month, day, year)
    else none
  else none

/-- Acceptance test applied to each date candidate (lines 75-84 of
adventure.py): `strptime` must succeed, and the parsed month must lie in
[1,12] and the parsed day in [1,31]; a ValueError (`none`) means the
candidate is skipped. -/
def date_is_valid (date : String) : Bool :=
  match strptime_mdY date with
  | some (month, day, _) => decide (1 ≤ month ∧ month ≤ 12 ∧ 1 ≤ day ∧ day ≤ 31)
  | none => false

/-- Embedding of `extract_journal_dates` (lines 60-86 of adventure.py):
scan for `\d{2}/\d{2}/\d{4}` candidates, keep those that `strptime` parses
and whose month is in [1,12] and day in [1,31] (the loop appending to
`valid_dates`, with its try/except, is the filter). -/
def extract_journal_dates (journal_text : String) : List String :=
  (re_findall date_pattern journal_text).filter date_is_valid

/-- Embedding of `extract_secret_codes` (lines 89-102 of adventure.py):
return every `AZMAR-\d{3}` match, in order. -/
def extract_secret_codes (journal_text : String) : List String :=
  re_findall code_pattern journal_text

/-- Python exceptions distinguished by the loaders' except-clauses
(lines 20-31 and 47-58 of adventure.py): `FileNotFoundError`,
`pandas.errors.EmptyDataError`, `IOError` (with its message), and any other
`Exception` (with its message). -/
inductive PyExc where
  | fileNotFoundError : PyExc
  | emptyDataError : PyExc
  | ioError : String → PyExc
  | otherException : String → PyExc
deriving DecidableEq

/-- Tabular dataset produced by the loaders (`pandas.DataFrame`): named
columns and an ordered sequence of rows. -/
structure DataFrame where
  columns : List String
  rows : List (List String)
deriving DecidableEq

/-- Embedding of `load_artifact_data` (lines 5-31 of adventure.py).  The
`pd.read_excel(excel_filepath, sheet_name="Main Chamber", skiprows=3)` call is
an external effect, passed in as its outcome `readExcel` (a DataFrame or a
raised exception).  The result pairs the function's return value with the
list of lines printed: on success the DataFrame, on any exception `None`
plus one diagnostic print.  The return type has no exception component:
every exception the read can raise is caught. -/
def load_artifact_data (excel_filepath : String)
    (readExcel : Except PyExc DataFrame) : Option DataFrame × List String :=
  match readExcel with
  | .ok df => (some df, [])
  | .error .fileNotFoundError =>
      (none, ["Error: File not found at " ++ excel_filepath])
  | .error .emptyDataError =>
      (none, ["Error: The file " ++ excel_filepath ++ " is empty."])
  | .error (.ioError e) =>
      (none, ["Error: I/O error occurred while accessing " ++ excel_filepath ++ ": " ++ e])
  | .error (.otherException e) =>
      (none, ["An unexpected error occurred: " ++ e])

/-- Embedding of `load_location_notes` (lines 33-58 of adventure.py), with the
outcome of the `pd.read_csv(tsv_filepath, sep="\t")` call passed in as
`readCsv`.  Same catch-all structure as `load_artifact_data`. -/
def load_location_notes (tsv_filepath : String)
    (readCsv : Except PyExc DataFrame) : Option DataFrame × List String :=
  match readCsv with
  | .ok df => (some df, [])
  | .error .fileNotFoundError =>
      (none, ["Error: File not found at " ++ tsv_filepath])
  | .error .emptyDataError =>
      (none, ["Error: The file " ++ tsv_filepath ++ " is empty."])
  | .error (.ioError e) =>
      (none, ["Error: I/O error occurred while accessing " ++ tsv_filepath ++ ": " ++ e])
  | .error (.otherException e) =>
      (none, ["An unexpected error occurred: " ++ e])

/-- Split a character list at every occurrence of `sep` (the splitting that
Python's `str.split(sep)` performs; the empty string splits to one empty
cell). -/
def splitOnChar (sep : Char) : List Char → List (List Char)
  | [] => [[]]
  | c :: cs =>
    match splitOnChar sep cs with
    | [] => if c == sep then [[], []] else [[c]]
    | cell :: cells =>
        if c == sep then [] :: cell :: cells else (c :: cell) :: cells

/-- Split a string on the tab character into its cells. -/
def py_split_tab (s : String) : List String :=
  (splitOnChar '\t' s.data).map String.mk

/-- Modelled from the spec: the behaviour of `pandas.read_csv(path, sep="\t")`
on already-read file content, given as the file's list of lines — pandas is an
external library whose parser is not part of this repository.  Per spec
sections 4.2 and 8: the first line is the header row, each further line is one
data row, and columns are split on the tab character; a file with no content
raises `EmptyDataError` (fully blank lines are skipped, which is the pandas
default `skip_blank_lines=True`). -/
def pd_read_csv_tab (lines : List String) : Except PyExc DataFrame :=
  match lines.filter (fun l => !l.isEmpty) with
  | [] => .error .emptyDataError
  | header :: dataLines =>
      .ok { columns := py_split_tab header, rows := dataLines.map py_split_tab }

/-- Adjacent matches of a position-annotated scan do not overlap: each match
starts no earlier than the end of the previous one. -/
def nonOverlapChain : List (Nat × List Char) → Bool
  | a :: rest@(b :: _) =>
      decide (a.1 + a.2.length ≤ b.1) && nonOverlapChain rest
  | _ => true

/-- Every position-annotated match of the scan is literally the substring of
`t` starting at its recorded position. -/
def matchSpans (pat : CharClass × List CharClass) (t : String) : Bool :=
  (findallAux pat t.data 0 0).all fun p =>
    decide ((t.data.drop p.1).take p.2.length = p.2)

/-- Lists matching a class sequence have the sequence's length. -/
theorem matchesClasses_length :
    ∀ (ps : List CharClass) (cs : List Char),
      matchesClasses ps cs = true → cs.length = ps.length
  | [], [], _ => rfl
  | [], _ :: _, h => by simp [matchesClasses] at h
  | _ :: _, [], h => by simp [matchesClasses] at h
  | p :: ps, c :: cs, h => by
      simp only [matchesClasses, Bool.and_eq_true] at h
      simp [matchesClasses_length ps cs h.2]

/-- Soundness of head matching: on success the input splits as the match
followed by the rest, and the match has exactly the pattern's shape. -/
theorem matchPattern_eq_some :
    ∀ (ps : List CharClass) (s m rest : List Char),
      matchPattern ps s = some (m, rest) →
      s = m ++ rest ∧ matchesClasses ps m = true
  | [], s, m, rest, h => by
      simp only [matchPattern, Option.some.injEq, Prod.mk.injEq] at h
      obtain ⟨h1, h2⟩ := h
      subst h1; subst h2
      exact ⟨rfl, rfl⟩
  | _ :: _, [], m, rest, h => by simp [matchPattern] at h
  | p :: ps, c :: cs, m, rest, h => by
      simp only [matchPattern] at h
      by_cases hc : matchesClass p c
      · rw [if_pos hc] at h
        cases hm : matchPattern ps cs with
        | none => rw [hm] at h; exact absurd h (by simp)
        | some pr =>
            obtain ⟨m', rest'⟩ := pr
            rw [hm] at h
            simp only [Option.some.injEq, Prod.mk.injEq] at h
            obtain ⟨h1, h2⟩ := h
            subst h1; subst h2
            obtain ⟨hs, hcls⟩ := matchPattern_eq_some ps cs m' rest' hm
            subst hs
            exact ⟨rfl, by simp [matchesClasses, hc, hcls]⟩
      · rw [if_neg hc] at h; exact absurd h (by simp)

/-- Unfolding: the scan of an empty text is empty. -/
theorem findallAux_nil (pat : CharClass × List CharClass) (i k : Nat) :
    findallAux pat [] i k = [] := rfl

/-- Unfolding: with characters still to skip, the scan steps over one. -/
theorem findallAux_cons_succ (pat : CharClass × List CharClass)
    (c : Char) (cs : List Char) (i k : Nat) :
    findallAux pat (c :: cs) i (k + 1) = findallAux pat cs (i + 1) k := rfl

/-- Unfolding: at an active position the scan emits a match if the pattern
matches here, then resumes after it; otherwise it advances one character. -/
theorem findallAux_cons_zero (pat : CharClass × List CharClass)
    (c : Char) (cs : List Char) (i : Nat) :
    findallAux pat (c :: cs) i 0 =
      match matchPattern (pat.1 :: pat.2) (c :: cs) with
      | some (m, _) => (i, m) :: findallAux pat cs (i + 1) (m.length - 1)
      | none => findallAux pat cs (i + 1) 0 := rfl

/-- Every element of the scan is at or after the active position, is the
literal substring of the scanned text at its recorded position, and has the
pattern's shape. -/
theorem findallAux_mem (pat : CharClass × List CharClass) :
    ∀ (s : List Char) (i k : Nat) (p : Nat × List Char),
      p ∈ findallAux pat s i k →
      i + k ≤ p.1 ∧ (s.drop (p.1 - i)).take p.2.length = p.2 ∧
      matchesClasses (pat.1 :: pat.2) p.2 = true
  | [], i, k, p, h => by rw [findallAux_nil] at h; exact absurd h (by simp)
  | c :: cs, i, k + 1, p, h => by
      rw [findallAux_cons_succ] at h
      obtain ⟨h1, h2, h3⟩ := findallAux_mem pat cs (i + 1) k p h
      refine ⟨by omega, ?_, h3⟩
      have hd : p.1 - i = (p.1 - (i + 1)) + 1 := by omega
      rw [hd, List.drop_succ_cons]
      exact h2
  | c :: cs, i, 0, p, h => by
      rw [findallAux_cons_zero] at h
      cases hm : matchPattern (pat.1 :: pat.2) (c :: cs) with
      | some pr =>
          obtain ⟨m, rest⟩ := pr
          rw [hm] at h
          rcases List.mem_cons.mp h with heq | htail
          · subst heq
            obtain ⟨hs, hcls⟩ := matchPattern_eq_some _ _ _ _ hm
            refine ⟨by omega, ?_, hcls⟩
            simp only [Nat.sub_self, List.drop_zero, hs]
            exact List.take_left m rest
          · obtain ⟨h1, h2, h3⟩ := findallAux_mem pat cs (i + 1) (m.length - 1) p htail
            refine ⟨by omega, ?_, h3⟩
            have hd : p.1 - i = (p.1 - (i + 1)) + 1 := by omega
            rw [hd, List.drop_succ_cons]
            exact h2
      | none =>
          rw [hm] at h
          obtain ⟨h1, h2, h3⟩ := findallAux_mem pat cs (i + 1) 0 p h
          refine ⟨by omega, ?_, h3⟩
          have hd : p.1 - i = (p.1 - (i + 1)) + 1 := by omega
          rw [hd, List.drop_succ_cons]
          exact h2

/-- Extending a non-overlapping chain by a match that ends before every
element of the chain starts. -/
theorem nonOverlapChain_cons (a : Nat × List Char) (l : List (Nat × List Char))
    (h1 : ∀ b ∈ l, a.1 + a.2.length ≤ b.1) (h2 : nonOverlapChain l = true) :
    nonOverlapChain (a :: l) = true := by
  cases l with
  | nil => simp [nonOverlapChain]
  | cons b bs =>
      simp only [nonOverlapChain, Bool.and_eq_true, decide_eq_true_eq]
      exact ⟨h1 b (List.mem_cons_self b bs), h2⟩

/-- The matches emitted by the scan never overlap: scanning resumes only
after the end of the previous match. -/
theorem nonOverlapChain_findallAux (pat : CharClass × List CharClass) :
    ∀ (s : List Char) (i k : Nat),
      nonOverlapChain (findallAux pat s i k) = true
  | [], _, _ => by rw [findallAux_nil]; simp [nonOverlapChain]
  | c :: cs, i, k + 1 => by
      rw [findallAux_cons_succ]
      exact nonOverlapChain_findallAux pat cs (i + 1) k
  | c :: cs, i, 0 => by
      rw [findallAux_cons_zero]
      cases hm : matchPattern (pat.1 :: pat.2) (c :: cs) with
      | some pr =>
          obtain ⟨m, rest⟩ := pr
          have hne : 1 ≤ m.length := by
            obtain ⟨-, hcls⟩ := matchPattern_eq_some _ _ _ _ hm
            have := matchesClasses_length _ _ hcls
            simp only [List.length_cons] at this
            omega
          refine nonOverlapChain_cons (i, m) _ ?_
            (nonOverlapChain_findallAux pat cs (i + 1) (m.length - 1))
          intro b hb
          have := (findallAux_mem pat cs (i + 1) (m.length - 1) b hb).1
          simp only
          omega
      | none => exact nonOverlapChain_findallAux pat cs (i + 1) 0

/-- If the pattern matches at no suffix of the text, the scan is empty. -/
theorem findallAux_eq_nil (pat : CharClass × List CharClass) :
    ∀ (s : List Char) (i k : Nat),
      (∀ d, matchPattern (pat.1 :: pat.2) (s.drop d) = none) →
      findallAux pat s i k = []
  | [], _, _, _ => rfl
  | c :: cs, i, k + 1, h => by
      rw [findallAux_cons_succ]
      exact findallAux_eq_nil pat cs (i + 1) k fun d => by
        have := h (d + 1); rwa [List.drop_succ_cons] at this
  | c :: cs, i, 0, h => by
      rw [findallAux_cons_zero]
      have h0 := h 0
      rw [List.drop_zero] at h0
      rw [h0]
      exact findallAux_eq_nil pat cs (i + 1) 0 fun d => by
        have := h (d + 1); rwa [List.drop_succ_cons] at this

/-- A class-sequence match of an appended list restricts to a match of the
right part against the remaining classes. -/
theorem matchesClasses_append_right :
    ∀ (u v : List Char) (ps : List CharClass),
      matchesClasses ps (u ++ v) = true →
      matchesClasses (ps.drop u.length) v = true
  | [], v, ps, h => h
  | c :: u', v, [], h => by simp [matchesClasses] at h
  | c :: u', v, p :: ps, h => by
      simp only [List.cons_append, matchesClasses, Bool.and_eq_true] at h
      simpa using matchesClasses_append_right u' v ps h.2

/-- Inversion of a successful `strptime`: the input is date-shaped, the
returned fields are the digit readings, and all CPython-side bounds hold. -/
theorem strptime_mdY_eq_some {d : String} {m dd y : Nat}
    (h : strptime_mdY d = some (m, dd, y)) :
    isDateShape d = true ∧ m = monthOf d ∧ dd = dayOf d ∧ y = yearOf d ∧
    1 ≤ m ∧ m ≤ 12 ∧ 1 ≤ dd ∧ dd ≤ 31 ∧ 1 ≤ y ∧ dd ≤ daysInMonth y m := by
  unfold strptime_mdY at h
  split at h
  next hsh =>
    dsimp only at h
    split at h
    next hb =>
      simp only [Option.some.injEq, Prod.mk.injEq] at h
      obtain ⟨h1, h2, h3⟩ := h
      subst h1; subst h2; subst h3
      exact ⟨hsh, rfl, rfl, rfl, hb.1, hb.2.1, hb.2.2.1, hb.2.2.2.1,
        hb.2.2.2.2.1, hb.2.2.2.2.2⟩
    next => exact absurd h (by simp)
  next => exact absurd h (by simp)

/-- Inversion of the acceptance test: an accepted candidate parses, is
date-shaped, and satisfies every bound — including day <= days in month. -/
theorem date_is_valid_eq_true {d : String} (h : date_is_valid d = true) :
    strptime_mdY d = some (monthOf d, dayOf d, yearOf d) ∧ isDateShape d = true ∧
    1 ≤ monthOf d ∧ monthOf d ≤ 12 ∧ 1 ≤ dayOf d ∧ dayOf d ≤ 31 ∧
    1 ≤ yearOf d ∧ dayOf d ≤ daysInMonth (yearOf d) (monthOf d) := by
  unfold date_is_valid at h
  cases hs : strptime_mdY d with
  | none => rw [hs] at h; exact absurd h (by simp)
  | some tri =>
      obtain ⟨m, dd, y⟩ := tri
      obtain ⟨hsh, h1, h2, h3, b1, b2, b3, b4, b5, b6⟩ := strptime_mdY_eq_some hs
      subst h1; subst h2; subst h3
      exact ⟨rfl, hsh, b1, b2, b3, b4, b5, b6⟩

/-- Every string produced by the scan wrapper has the pattern's shape. -/
theorem mem_re_findall {pat : CharClass × List CharClass} {t c : String}
    (h : c ∈ re_findall pat t) :
    matchesClasses (pat.1 :: pat.2) c.data = true := by
  unfold re_findall at h
  obtain ⟨p, hp, he⟩ := List.mem_map.mp h
  obtain ⟨-, -, h3⟩ := findallAux_mem pat t.data 0 0 p hp
  rw [← he]
  exact h3

/-- Membership in the date extractor's output splits into membership in the
scan and acceptance by the validity test. -/
theorem mem_extract_journal_dates {t s : String}
    (h : s ∈ extract_journal_dates t) :
    s ∈ re_findall date_pattern t ∧ date_is_valid s = true :=
  List.mem_filter.mp h

/-- C1 counterexample: the claim predicts that the shape-matching candidate
"02/30/2024" (day 30 <= 31) is accepted and returned; on the code it is
rejected, because `datetime.strptime` raises on February 30. -/
theorem C1_counterexample_feb30_rejected :
    isDateShape "02/30/2024" = true ∧ monthOf "02/30/2024" ≤ 12 ∧
    dayOf "02/30/2024" ≤ 31 ∧ extract_journal_dates "02/30/2024" = [] := by
  refine ⟨by decide, by decide, by decide, by decide⟩

/-- C1 (amended): the Date Extractor's acceptance check is calendar-aware,
not a syntactic bound only: for every text input, a shape-matching candidate
whose day does not exist in its month, such as "02/30/2024", is never
returned. -/
theorem C1_amended_calendar_aware_check (t : String) :
    (extract_journal_dates t).contains "02/30/2024" = false := by
  by_contra hc
  rw [Bool.not_eq_false] at hc
  have hmem : "02/30/2024" ∈ extract_journal_dates t := List.elem_iff.mp hc
  obtain ⟨-, hv⟩ := mem_extract_journal_dates hmem
  exact absurd hv (by decide)

/-- C2: for every text input, every string returned by
`extract_journal_dates` matches the two-digit/two-digit/four-digit date
shape and, read as month/day/year, has month in [1,12] and day in [1,31]. -/
theorem C2_returned_dates_shape_and_bounds (t s : String)
    (h : s ∈ extract_journal_dates t) :
    isDateShape s = true ∧
    1 ≤ monthOf s ∧ monthOf s ≤ 12 ∧ 1 ≤ dayOf s ∧ dayOf s ≤ 31 := by
  obtain ⟨-, hv⟩ := mem_extract_journal_dates h
  obtain ⟨-, hsh, h1, h2, h3, h4, -⟩ := date_is_valid_eq_true hv
  exact ⟨hsh, h1, h2, h3, h4⟩

/-- Witness for C2: the scenario input's returned date satisfies shape and
bounds. -/
theorem C2_returned_dates_shape_and_bounds_witness :
    isDateShape "01/15/2023" = true ∧
    1 ≤ monthOf "01/15/2023" ∧ monthOf "01/15/2023" ≤ 12 ∧
    1 ≤ dayOf "01/15/2023" ∧ dayOf "01/15/2023" ≤ 31 :=
  C2_returned_dates_shape_and_bounds "Found on 01/15/2023" "01/15/2023" (by decide)

/-- C3: for every text input, every string returned by
`extract_secret_codes` is the literal "AZMAR-" followed by exactly three
digits. -/
theorem C3_returned_codes_shape (t c : String)
    (h : c ∈ extract_secret_codes t) : isCodeShape c = true :=
  mem_re_findall h

/-- Witness for C3 at a concrete input. -/
theorem C3_returned_codes_shape_witness : isCodeShape "AZMAR-042" = true :=
  C3_returned_codes_shape "near AZMAR-042." "AZMAR-042" (by decide)

/-- C9: every string returned by `extract_journal_dates` is a fully
calendar-valid date under the month/day/year reading: `strptime` parses it,
so its day exists in that month of that year (Gregorian leap rule) — and in
particular the shape-matching candidates "02/30/2024" and "02/29/2023" are
rejected. -/
theorem C9_returned_dates_calendar_valid (t s : String)
    (h : s ∈ extract_journal_dates t) :
    strptime_mdY s = some (monthOf s, dayOf s, yearOf s) ∧
    isDateShape s = true ∧ 1 ≤ monthOf s ∧ monthOf s ≤ 12 ∧ 1 ≤ dayOf s ∧
    dayOf s ≤ daysInMonth (yearOf s) (monthOf s) ∧ 1 ≤ yearOf s ∧
    extract_journal_dates "02/30/2024" = [] ∧
    extract_journal_dates "02/29/2023" = [] := by
  obtain ⟨-, hv⟩ := mem_extract_journal_dates h
  obtain ⟨hp, hsh, h1, h2, h3, -, h5, h6⟩ := date_is_valid_eq_true hv
  exact ⟨hp, hsh, h1, h2, h3, h6, h5, by decide, by decide⟩

/-- Witness for C9 at the (valid) leap-day input "02/29/2024". -/
theorem C9_returned_dates_calendar_valid_witness :
    strptime_mdY "02/29/2024" =
      some (monthOf "02/29/2024", dayOf "02/29/2024", yearOf "02/29/2024") ∧
    isDateShape "02/29/2024" = true ∧ 1 ≤ monthOf "02/29/2024" ∧
    monthOf "02/29/2024" ≤ 12 ∧ 1 ≤ dayOf "02/29/2024" ∧
    dayOf "02/29/2024" ≤ daysInMonth (yearOf "02/29/2024") (monthOf "02/29/2024") ∧
    1 ≤ yearOf "02/29/2024" ∧
    extract_journal_dates "02/30/2024" = [] ∧
    extract_journal_dates "02/29/2023" = [] :=
  C9_returned_dates_calendar_valid "02/29/2024" "02/29/2024" (by decide)

/-- C5: the spec's demonstration scenario, on the exact input text. -/
theorem C5_scenario_extractors :
    extract_journal_dates
        "Found on 01/15/2023 near AZMAR-042, also 99/99/9999 and AZMAR-7." =
      ["01/15/2023"] ∧
    extract_secret_codes
        "Found on 01/15/2023 near AZMAR-042, also 99/99/9999 and AZMAR-7." =
      ["AZMAR-042"] :=
  ⟨by decide, by decide⟩

/-- C6: a text whose only date-shaped candidate is "13/01/2024" yields no
dates (month 13 makes `strptime` raise), and a text in which no position
reads `AZMAR-` followed by three digits yields no codes. -/
theorem C6_boundary_rejections (t1 t2 : String)
    (h1 : re_findall date_pattern t1 = ["13/01/2024"])
    (h2 : ∀ d ≤ t2.data.length,
      matchPattern (code_pattern.1 :: code_pattern.2) (t2.data.drop d) = none) :
    extract_journal_dates t1 = [] ∧ extract_secret_codes t2 = [] := by
  constructor
  · unfold extract_journal_dates
    rw [h1]
    decide
  · unfold extract_secret_codes re_findall
    have hnil := findallAux_eq_nil code_pattern t2.data 0 0 ?_
    · rw [hnil]; rfl
    · intro d
      by_cases hdl : d ≤ t2.data.length
      · exact h2 d hdl
      · rw [List.drop_eq_nil_of_le (by omega)]
        rfl

/-- Witness for C6 at the spec's boundary inputs. -/
theorem C6_boundary_rejections_witness :
    extract_journal_dates "13/01/2024" = [] ∧
    extract_secret_codes "AZMAR-12" = [] :=
  C6_boundary_rejections "13/01/2024" "AZMAR-12" (by decide) (by decide)

/-- C7: neither loader lets an exception past its boundary — its return type
carries no exception.  On each failure category the result is the sentinel
`none` together with exactly one printed diagnostic line, and on success the
DataFrame with nothing printed. -/
theorem C7_loaders_never_raise (path : String) (e : PyExc) (df : DataFrame) :
    (load_artifact_data path (.error e)).1 = none ∧
    (load_artifact_data path (.error e)).2.length = 1 ∧
    (load_location_notes path (.error e)).1 = none ∧
    (load_location_notes path (.error e)).2.length = 1 ∧
    load_artifact_data path (.ok df) = (some df, []) ∧
    load_location_notes path (.ok df) = (some df, []) := by
  cases e <;> simp [load_artifact_data, load_location_notes]

/-- C8: loading a well-formed tab-separated file (a header line followed by
N nonempty data lines) returns a table whose columns are the header split on
tab, whose rows are the data lines split on tab — N rows in all — with
nothing printed. -/
theorem C8_load_location_notes_rows (path header : String)
    (dataLines : List String) (hh : header.isEmpty = false)
    (hd : ∀ l ∈ dataLines, l.isEmpty = false) :
    load_location_notes path (pd_read_csv_tab (header :: dataLines)) =
      (some { columns := py_split_tab header,
              rows := dataLines.map py_split_tab }, []) ∧
    (dataLines.map py_split_tab).length = dataLines.length := by
  have hfilter : (header :: dataLines).filter (fun l => !l.isEmpty) =
      header :: dataLines := by
    rw [List.filter_eq_self]
    intro a ha
    rcases List.mem_cons.mp ha with h | h
    · subst h; simp [hh]
    · simp [hd a h]
  constructor
  · unfold pd_read_csv_tab
    rw [hfilter]
    rfl
  · simp

/-- Witness for C8 on a two-row tab-separated file. -/
theorem C8_load_location_notes_rows_witness :
    load_location_notes "locations.tsv"
        (pd_read_csv_tab ["Site\tClue", "Temple\tMap", "River\tKey"]) =
      (some { columns := py_split_tab "Site\tClue",
              rows := ["Temple\tMap", "River\tKey"].map py_split_tab }, []) ∧
    (["Temple\tMap", "River\tKey"].map py_split_tab).length =
      (["Temple\tMap", "River\tKey"] : List String).length :=
  C8_load_location_notes_rows "locations.tsv" "Site\tClue"
    ["Temple\tMap", "River\tKey"] (by decide) (by decide)

/-- C4: both extractors return exactly the strings of the position-annotated
left-to-right scan — the codes are its matches in scan order, the dates are
the order-preserving filter of its matches — the scan's matches never overlap
and each is the literal substring of the text at its recorded position, and
duplicates are preserved (two occurrences of the same code yield two list
entries). -/
theorem C4_scan_order_and_duplicates (t : String) :
    extract_journal_dates t =
      ((findallAux date_pattern t.data 0 0).map (fun p => String.mk p.2)).filter
        date_is_valid ∧
    extract_secret_codes t =
      (findallAux code_pattern t.data 0 0).map (fun p => String.mk p.2) ∧
    nonOverlapChain (findallAux date_pattern t.data 0 0) = true ∧
    nonOverlapChain (findallAux code_pattern t.data 0 0) = true ∧
    matchSpans date_pattern t = true ∧
    matchSpans code_pattern t = true ∧
    extract_secret_codes "AZMAR-042 near AZMAR-042" = ["AZMAR-042", "AZMAR-042"] ∧
    extract_journal_dates "01/15/2023 and 01/15/2023" =
      ["01/15/2023", "01/15/2023"] := by
  refine ⟨rfl, rfl, nonOverlapChain_findallAux date_pattern t.data 0 0,
    nonOverlapChain_findallAux code_pattern t.data 0 0, ?_, ?_,
    by decide, by decide⟩
  · unfold matchSpans
    rw [List.all_eq_true]
    intro p hp
    have h2 := (findallAux_mem date_pattern t.data 0 0 p hp).2.1
    simpa using h2
  · unfold matchSpans
    rw [List.all_eq_true]
    intro p hp
    have h2 := (findallAux_mem code_pattern t.data 0 0 p hp).2.1
    simpa using h2

/-- No suffix of the `AZMAR-\d{3}` pattern matches any proper nonempty
head of "AZMAR-1234": the alignment table is checked exhaustively. -/
theorem code_no_align : ∀ k ≤ 8, 1 ≤ k →
    matchesClasses ((code_pattern.1 :: code_pattern.2).drop (9 - k))
      ("AZMAR-1234".data.take k) = false := by decide

/-- A pattern match that starts strictly before an embedded "AZMAR-1234"
cannot straddle into it: it must lie entirely inside the preceding part,
so that part holds at least the eight characters of the match's tail. -/
theorem no_code_straddle {c : Char} {a' b m r : List Char}
    (h : matchPattern (code_pattern.1 :: code_pattern.2)
      (c :: (a' ++ ("AZMAR-1234".data ++ b))) = some (m, r)) :
    8 ≤ a'.length := by
  by_contra hlt
  push_neg at hlt
  obtain ⟨hs, hcls⟩ := matchPattern_eq_some _ _ _ _ h
  have hmlen : m.length = 9 := by
    have hl := matchesClasses_length _ _ hcls
    simpa [code_pattern] using hl
  rw [← List.cons_append] at hs
  have hm : m = ((c :: a') ++ ("AZMAR-1234".data ++ b)).take 9 := by
    rw [hs, ← hmlen, List.take_left]
  have h9 : ((c :: a') ++ ("AZMAR-1234".data ++ b)).take 9 =
      (c :: a') ++ ("AZMAR-1234".data ++ b).take (9 - (c :: a').length) := by
    rw [List.take_append_eq_append_take,
      List.take_of_length_le (by simp; omega)]
  have htb : ("AZMAR-1234".data ++ b).take (9 - (c :: a').length) =
      "AZMAR-1234".data.take (9 - (c :: a').length) := by
    rw [List.take_append_eq_append_take]
    have hz : 9 - (c :: a').length - ("AZMAR-1234".data).length = 0 := by
      simp; omega
    rw [hz]
    simp
  have hmfull : m = (c :: a') ++ "AZMAR-1234".data.take (9 - (c :: a').length) := by
    rw [hm, h9, htb]
  have hsuf := matchesClasses_append_right (c :: a')
    ("AZMAR-1234".data.take (9 - (c :: a').length))
    (code_pattern.1 :: code_pattern.2) (by rw [← hmfull]; exact hcls)
  have hk1 : 1 ≤ 9 - (c :: a').length := by simp; omega
  have hk8 : 9 - (c :: a').length ≤ 8 := by simp
  have hfalse := code_no_align (9 - (c :: a').length) hk8 hk1
  have hidx : 9 - (9 - (c :: a').length) = (c :: a').length := by simp; omega
  rw [hidx] at hfalse
  rw [hfalse] at hsuf
  exact Bool.false_ne_true hsuf

/-- Unfolding: an active position with a successful head match emits it. -/
theorem findallAux_step_some {pat : CharClass × List CharClass} {c : Char}
    {cs m r : List Char} (i : Nat)
    (hm : matchPattern (pat.1 :: pat.2) (c :: cs) = some (m, r)) :
    findallAux pat (c :: cs) i 0 =
      (i, m) :: findallAux pat cs (i + 1) (m.length - 1) := by
  rw [findallAux_cons_zero, hm]

/-- Unfolding: an active position with no head match advances one step. -/
theorem findallAux_step_none {pat : CharClass × List CharClass} {c : Char}
    {cs : List Char} (i : Nat)
    (hm : matchPattern (pat.1 :: pat.2) (c :: cs) = none) :
    findallAux pat (c :: cs) i 0 = findallAux pat cs (i + 1) 0 := by
  rw [findallAux_cons_zero, hm]

/-- Wherever "AZMAR-1234" occurs in the text, the scan emits the truncated
match "AZMAR-123" (as long as the pending skip does not reach past the
preceding part). -/
theorem code_in_middle_found :
    ∀ (a b : List Char) (i k : Nat), k ≤ a.length →
      "AZMAR-123".data ∈
        (findallAux code_pattern (a ++ ("AZMAR-1234".data ++ b)) i k).map
          Prod.snd
  | [], b, i, 0, _ => by
      rw [List.nil_append]
      have hstep : findallAux code_pattern ("AZMAR-1234".data ++ b) i 0 =
          (i, "AZMAR-123".data) ::
            findallAux code_pattern ("ZMAR-1234".data ++ b) (i + 1) 8 := rfl
      rw [hstep, List.map_cons]
      exact List.mem_cons_self _ _
  | [], _, _, k + 1, hk => absurd hk (by simp)
  | c :: a', b, i, k + 1, hk => by
      rw [List.cons_append, findallAux_cons_succ]
      refine code_in_middle_found a' b (i + 1) k ?_
      simp only [List.length_cons] at hk
      omega
  | c :: a', b, i, 0, hk => by
      rw [List.cons_append]
      rcases hm : matchPattern (code_pattern.1 :: code_pattern.2)
          (c :: (a' ++ ("AZMAR-1234".data ++ b))) with _ | ⟨m, r⟩
      · rw [findallAux_step_none i hm]
        exact code_in_middle_found a' b (i + 1) 0 (Nat.zero_le _)
      · have h8 : 8 ≤ a'.length := no_code_straddle hm
        have hmlen : m.length = 9 := by
          have hl := matchesClasses_length _ _
            (matchPattern_eq_some _ _ _ _ hm).2
          simpa [code_pattern] using hl
        rw [findallAux_step_some i hm, List.map_cons]
        refine List.mem_cons_of_mem _ ?_
        exact code_in_middle_found a' b (i + 1) (m.length - 1) (by omega)

/-- C10: a match of "AZMAR-" followed by more than three digits is truncated
rather than rejected: every text containing "AZMAR-1234" yields "AZMAR-123"
among the extracted codes (the pattern is unanchored on the right), and on
"AZMAR-1234" alone the extractor returns exactly ["AZMAR-123"]. -/
theorem C10_overlong_code_truncated (a b : String) :
    "AZMAR-123" ∈ extract_secret_codes (a ++ "AZMAR-1234" ++ b) ∧
    extract_secret_codes "AZMAR-1234" = ["AZMAR-123"] := by
  refine ⟨?_, by decide⟩
  unfold extract_secret_codes re_findall
  have hdata : (a ++ "AZMAR-1234" ++ b).data =
      a.data ++ ("AZMAR-1234".data ++ b.data) := by
    simp [String.data_append]
  rw [hdata]
  have hmem := code_in_middle_found a.data b.data 0 0 (Nat.zero_le _)
  obtain ⟨p, hp, he⟩ := List.mem_map.mp hmem
  exact List.mem_map.mpr ⟨p, hp, by rw [he]⟩

end Adventure
